import Mathlib

/-!
Verification of the Lempel-Ziv complexity implementation in
`neurokit2/complexity/complexity_lempelziv.py`.

The Python source is shallowly embedded as follows.

* Real-valued signal samples are modelled as rationals (`ℚ`), so that the
  binarizer and the scanner stay fully executable; the normalizer, which
  uses `log2`, is modelled over `ℝ` with `Real.logb 2`.
* `np.median` / `np.mean` are transcribed as `npMedian` / `npMean`
  (sort-and-take-middle, respectively sum-over-length).
* `_complexity_lempelziv_binarize` keeps its Python control flow: the two
  recognized threshold modes compute a numeric threshold; any other mode
  string leaves the threshold equal to the mode string itself, so the first
  comparison `value < threshold` inside the conversion loop raises a
  `TypeError` (modelled with `Except`); an empty signal never executes the
  loop and therefore raises nothing.
* The scanner's while-loop is embedded as a step function `lzStep` on the
  scan state, iterated with explicit fuel `lzFuel` that is proved (below)
  to be large enough for the loop to have reached a state falsifying the
  loop condition, so `lzScanRaw` computes exactly the value of the Python
  while-loop.
* Python division by zero on floats does not raise; for the one input where
  it matters (`n = 1`, where `np.log2 1 = 0`), IEEE evaluation gives
  `complexity / (1 / 0.0) = complexity / inf = 0.0`, and the Mathlib
  convention `x / 0 = 0` gives the same value `0`, so the totalized real
  division is a faithful model of the returned number there.
* `_sanitize_multichannel` is not part of the excerpt; following the spec
  (section 4.4) a multichannel input is modelled as the ordered list of its
  channels, each a single sequence.
-/

/-- Insertion of one element into a sorted list of rationals, used to model
the ascending sort performed inside `np.median`. -/
def insertSorted (x : ℚ) : List ℚ → List ℚ
  | [] => [x]
  | y :: ys => if x ≤ y then x :: y :: ys else y :: insertSorted x ys

/-- Ascending insertion sort on rationals (model of the sort inside
`np.median`). -/
def sortQ : List ℚ → List ℚ
  | [] => []
  | x :: xs => insertSorted x (sortQ xs)

/-- Model of `np.median`: sort ascending; for odd length take the middle
element, for even length average the two middle elements.  (`np.median` of
an empty array is the junk value `nan`; the model returns the junk value
`0`, and no claim depends on the median of an empty signal.) -/
def npMedian (xs : List ℚ) : ℚ :=
  let s := sortQ xs
  let n := s.length
  if n % 2 = 1 then s.getD (n / 2) 0
  else (s.getD (n / 2 - 1) 0 + s.getD (n / 2) 0) / 2

/-- Model of `np.mean`: sum divided by length (junk value `0` on the empty
list, where numpy produces `nan`; no claim depends on it). -/
def npMean (xs : List ℚ) : ℚ :=
  xs.sum / (xs.length : ℚ)

/-- Embedding of `_complexity_lempelziv_binarize`.  For the two recognized
modes the threshold becomes `np.median(signal)` / `np.mean(signal)` and the
conversion loop maps each value `v` to `0` if `v < threshold` else `1`
(ties go to `1`), exactly as in the source.  For any other mode string the
Python variable `threshold` keeps the string value, so the first loop
iteration evaluates `value < threshold` on a float and a string and raises
a `TypeError`; with an empty signal the loop body never runs and the empty
(integer) sequence is returned. -/
def lempelziv_binarize (signal : List ℚ) (mode : String) : Except String (List Int) :=
  if mode = "median" then
    Except.ok (signal.map (fun v => if v < npMedian signal then (0 : Int) else 1))
  else if mode = "mean" then
    Except.ok (signal.map (fun v => if v < npMean signal then (0 : Int) else 1))
  else
    match signal with
    | [] => Except.ok []
    | _ :: _ => Except.error "TypeError: unsupported comparison between float and str"

/-- The scanner's mutable local variables of `_complexity_lempelziv`
(`complexity`, `pointer`, `current_prefix_len`, `current_substring_len`,
`final_substring_len`). -/
structure LZState where
  complexity : Nat
  pointer : Nat
  current_prefix_len : Nat
  current_substring_len : Nat
  final_substring_len : Nat
deriving DecidableEq

/-- Initial scan state of `_complexity_lempelziv`:
`complexity = 1, pointer = 0, current_prefix_len = 1,
current_substring_len = 1, final_substring_len = 1`. -/
def lzInit : LZState := ⟨1, 0, 1, 1, 1⟩

/-- The while-loop condition `current_prefix_len + current_substring_len <= n`. -/
def lzCond (n : Nat) (s : LZState) : Prop :=
  s.current_prefix_len + s.current_substring_len ≤ n

instance (n : Nat) (s : LZState) : Decidable (lzCond n s) :=
  Nat.decLe _ _

/-- One execution of the while-loop body of `_complexity_lempelziv`:
compare `p_seq[pointer + current_substring_len - 1]` with
`p_seq[current_prefix_len + current_substring_len - 1]`; on a match extend
the substring, on a mismatch update `final_substring_len`, advance the
pointer and either commit a new phrase (pointer reached the prefix
boundary) or retry from the next pointer position.  List indexing uses
`getD _ 0`; while the loop runs both indices are in bounds (the pointer
stays below the prefix boundary and the loop condition bounds the second
index), so the default is never consulted. -/
def lzStep (p : List Int) (s : LZState) : LZState :=
  if p.getD (s.pointer + s.current_substring_len - 1) 0 =
      p.getD (s.current_prefix_len + s.current_substring_len - 1) 0 then
    { s with current_substring_len := s.current_substring_len + 1 }
  else
    let fin := max s.current_substring_len s.final_substring_len
    if s.pointer + 1 = s.current_prefix_len then
      { complexity := s.complexity + 1
        pointer := 0
        current_prefix_len := s.current_prefix_len + fin
        current_substring_len := 1
        final_substring_len := 1 }
    else
      { s with
        pointer := s.pointer + 1
        current_substring_len := 1
        final_substring_len := fin }

/-- Guarded step: run the loop body if the loop condition holds, otherwise
leave the state unchanged (the loop has exited). -/
def lzGuard (p : List Int) (s : LZState) : LZState :=
  if lzCond p.length s then lzStep p s else s

/-- The while-loop with fuel: perform up to `k` loop-body executions from
state `s`, returning the current state as soon as the loop condition
fails.  This is extensionally the iteration of `lzGuard`
(see `lzRun_succ_back`), but evaluation stops at loop exit. -/
def lzRun (p : List Int) (s : LZState) : Nat → LZState
  | 0 => s
  | k + 1 => if lzCond p.length s then lzRun p (lzStep p s) k else s

/-- State of the scanner at the `k`-th evaluation of the loop condition
(iterating the guarded body from the initial state). -/
def lzIter (p : List Int) (k : Nat) : LZState :=
  lzRun p lzInit k

/-- Fuel that is proved sufficient for the while-loop of the scanner to
terminate on a binary sequence of length `n` (see `lzIter_fuel_final`). -/
def lzFuel (n : Nat) : Nat := (n + 2) ^ 3

/-- Embedding of the raw (unnormalized) scanner of `_complexity_lempelziv`:
run the while-loop to completion, then add the final increment when
`current_substring_len != 1`, and return `complexity`. -/
def lzScanRaw (p : List Int) : Nat :=
  let s := lzIter p (lzFuel p.length)
  if s.current_substring_len ≠ 1 then s.complexity + 1 else s.complexity

/-- Embedding of `_complexity_lempelziv_normalize`:
`complexity / (n / np.log2(n))` with `n` the length of the binary
sequence, over the reals with totalized division (see the header note on
the `n = 1` case, where this agrees with the IEEE value `0.0`). -/
noncomputable def lempelziv_normalize (sequence : List Int) (complexity : Nat) : ℝ :=
  (complexity : ℝ) / ((sequence.length : ℝ) / Real.logb 2 (sequence.length : ℝ))

/-- Embedding of `_complexity_lempelziv`: binarize, scan, and optionally
normalize; a `TypeError` escaping the binarizer propagates. -/
noncomputable def lempelziv_single (signal : List ℚ) (threshold : String) (normalize : Bool) :
    Except String ℝ :=
  match lempelziv_binarize signal threshold with
  | Except.error e => Except.error e
  | Except.ok p =>
      let c := lzScanRaw p
      Except.ok (if normalize then lempelziv_normalize p c else (c : ℝ))

/-- Value of a successful computation (junk value `0` on an error; used only
where the computation is proved to succeed). -/
def exceptD (e : Except String ℝ) : ℝ :=
  match e with
  | Except.ok v => v
  | Except.error _ => 0

/-- The single-channel complexity as a real number (well-defined whenever
the computation succeeds). -/
noncomputable def lzcValue (ch : List ℚ) (mode : String) (nz : Bool) : ℝ :=
  exceptD (lempelziv_single ch mode nz)

/-- The per-channel loop of `complexity_lempelziv` (the `lzc_values` list):
each channel goes through the single-sequence path in order; an exception
in any channel aborts the whole computation. -/
noncomputable def lzcList (channels : List (List ℚ)) (mode : String) (nz : Bool) :
    Except String (List ℝ) :=
  match channels with
  | [] => Except.ok []
  | ch :: rest =>
      match lempelziv_single ch mode nz with
      | Except.error e => Except.error e
      | Except.ok v =>
          match lzcList rest mode nz with
          | Except.error e => Except.error e
          | Except.ok vs => Except.ok (v :: vs)

/-- Embedding of the multichannel branch of `complexity_lempelziv`: the
channels (ordered, per the spec's model of `_sanitize_multichannel`) are
processed one by one; the result is `np.mean(lzc_values)` paired with the
`parameters['values']` list. -/
noncomputable def complexity_lempelziv (channels : List (List ℚ)) (mode : String) (nz : Bool) :
    Except String (ℝ × List ℝ) :=
  match lzcList channels mode nz with
  | Except.error e => Except.error e
  | Except.ok vs => Except.ok (vs.sum / (vs.length : ℝ), vs)

/-- Loop invariant of the scanner: the pointer stays strictly below the
prefix boundary, the substring lengths stay positive, the prefix boundary
never exceeds `n + 1`, and while the loop is still live the committed best
match cannot push the boundary past `n + 1`. -/
def lzInv (n : Nat) (s : LZState) : Prop :=
  s.pointer < s.current_prefix_len ∧
  1 ≤ s.current_substring_len ∧
  1 ≤ s.final_substring_len ∧
  s.current_prefix_len ≤ n + 1 ∧
  (lzCond n s → s.current_prefix_len + s.final_substring_len ≤ n + 1)

/-- Ranking function for the while-loop: lexicographic measure
(prefix headroom, pointer headroom, substring headroom) collapsed into a
single natural number with base `n + 2`. -/
def lzM (n : Nat) (s : LZState) : Nat :=
  (n + 1 - s.current_prefix_len) * (n + 2) ^ 2 +
    (s.current_prefix_len - s.pointer) * (n + 2) +
    (n + 1 - s.current_substring_len)

/-- Unfolding the fuelled loop one live step at a time. -/
theorem lzRun_succ_of_cond (p : List Int) (s : LZState) (k : Nat)
    (hc : lzCond p.length s) :
    lzRun p s (k + 1) = lzRun p (lzStep p s) k := by
  show (if lzCond p.length s then lzRun p (lzStep p s) k else s) = lzRun p (lzStep p s) k
  rw [if_pos hc]

/-- Once the loop condition fails, any amount of further fuel leaves the
state unchanged. -/
theorem lzRun_fix (p : List Int) (s : LZState) (h : ¬ lzCond p.length s) :
    ∀ k, lzRun p s k = s := by
  intro k
  cases k with
  | zero => rfl
  | succ k =>
      show (if lzCond p.length s then lzRun p (lzStep p s) k else s) = s
      rw [if_neg h]

/-- The fuelled loop is the iteration of the guarded step: the state after
`k + 1` condition evaluations is one guarded step past the state after
`k`. -/
theorem lzRun_succ_back (p : List Int) : ∀ (k : Nat) (s : LZState),
    lzRun p s (k + 1) = lzGuard p (lzRun p s k) := by
  intro k
  induction k with
  | zero =>
      intro s
      by_cases hc : lzCond p.length s
      · rw [lzRun_succ_of_cond p s 0 hc]
        show lzStep p s = lzGuard p s
        rw [lzGuard, if_pos hc]
      · rw [lzRun_fix p s hc 1]
        show s = lzGuard p (lzRun p s 0)
        show s = lzGuard p s
        rw [lzGuard, if_neg hc]
  | succ k ih =>
      intro s
      by_cases hc : lzCond p.length s
      · rw [lzRun_succ_of_cond p s (k + 1) hc, ih (lzStep p s),
          lzRun_succ_of_cond p s k hc]
      · rw [lzRun_fix p s hc (k + 1 + 1), lzRun_fix p s hc (k + 1), lzGuard, if_neg hc]

/-- The initial scan state satisfies the loop invariant. -/
theorem lzInv_init (n : Nat) : lzInv n lzInit := by
  simp only [lzInv, lzInit, lzCond]
  omega

/-- The loop body preserves the invariant while the loop condition holds. -/
theorem lzInv_step (p : List Int) (s : LZState)
    (hI : lzInv p.length s) (hc : lzCond p.length s) :
    lzInv p.length (lzStep p s) := by
  obtain ⟨ct, ptr, pre, sub, fin⟩ := s
  simp only [lzInv, lzCond, lzStep] at hI hc ⊢
  split_ifs with hm hp
  · dsimp only at hI hc ⊢
    omega
  · dsimp only at hI hc ⊢
    omega
  · dsimp only at hI hc ⊢
    omega

/-- The ranking function strictly decreases at every live loop step. -/
theorem lzM_step (p : List Int) (s : LZState)
    (hI : lzInv p.length s) (hc : lzCond p.length s) :
    lzM p.length (lzStep p s) < lzM p.length s := by
  obtain ⟨ct, ptr, pre, sub, fin⟩ := s
  simp only [lzInv, lzCond, lzStep, lzM] at hI hc ⊢
  set n := p.length with hn
  split_ifs with hm hp
  · dsimp only at hI hc ⊢
    apply Nat.add_lt_add_left
    omega
  · dsimp only at hI hc ⊢
    set F := max sub fin with hF
    have hF1 : 1 ≤ F := le_trans hI.2.1 (le_max_left _ _)
    have hFle : pre + F ≤ n + 1 := by
      have := hI.2.2.2.2 hc
      omega
    have d1 : n + 1 - (pre + F) + 1 ≤ n + 1 - pre := by omega
    have f1 : (n + 1 - (pre + F)) * (n + 2) ^ 2 + (n + 2) ^ 2 ≤ (n + 1 - pre) * (n + 2) ^ 2 := by
      calc (n + 1 - (pre + F)) * (n + 2) ^ 2 + (n + 2) ^ 2
          = (n + 1 - (pre + F) + 1) * (n + 2) ^ 2 := (Nat.succ_mul _ _).symm
        _ ≤ (n + 1 - pre) * (n + 2) ^ 2 := Nat.mul_le_mul_right _ d1
    have f2 : (pre + F - 0) * (n + 2) ≤ (n + 1) * (n + 2) :=
      Nat.mul_le_mul_right _ (by omega)
    have f3 : (n + 1) * (n + 2) + (n + 2) = (n + 2) ^ 2 := by ring
    omega
  · dsimp only at hI hc ⊢
    have hplt : ptr + 1 < pre := by omega
    have e0 : pre - (ptr + 1) + 1 = pre - ptr := by omega
    have e1 : (pre - (ptr + 1)) * (n + 2) + (n + 2) = (pre - ptr) * (n + 2) := by
      calc (pre - (ptr + 1)) * (n + 2) + (n + 2)
          = (pre - (ptr + 1) + 1) * (n + 2) := (Nat.succ_mul _ _).symm
        _ = (pre - ptr) * (n + 2) := by rw [e0]
    omega

/-- Fuel sufficiency: from any invariant state the loop reaches, within
`lzM` many guarded steps, a state where the loop condition fails. -/
theorem lzTerm_aux (p : List Int) :
    ∀ (k : Nat) (s : LZState), lzInv p.length s → lzM p.length s ≤ k →
      ¬ lzCond p.length (lzRun p s k) := by
  intro k
  induction k with
  | zero =>
      intro s hI hM hc
      obtain ⟨h1, h2, h3, h4, h5⟩ := hI
      have hcn : s.current_prefix_len + s.current_substring_len ≤ p.length := hc
      have ha : 1 ≤ p.length + 1 - s.current_prefix_len := by omega
      have hb : 0 < (p.length + 2) ^ 2 := pow_pos (by omega) 2
      have : 1 * 1 ≤ (p.length + 1 - s.current_prefix_len) * (p.length + 2) ^ 2 :=
        Nat.mul_le_mul ha hb
      have hMge : 1 ≤ lzM p.length s := by
        unfold lzM
        omega
      omega
  | succ k ih =>
      intro s hI hM
      by_cases hc : lzCond p.length s
      · rw [lzRun_succ_of_cond p s k hc]
        have hlt := lzM_step p s hI hc
        exact ih (lzStep p s) (lzInv_step p s hI hc) (by omega)
      · rw [lzRun_fix p s hc (k + 1)]
        exact hc

/-- The chosen fuel dominates the ranking function of the initial state. -/
theorem lzM_init_le_fuel (n : Nat) : lzM n lzInit ≤ lzFuel n := by
  show (n + 1 - 1) * (n + 2) ^ 2 + (1 - 0) * (n + 2) + (n + 1 - 1) ≤ (n + 2) ^ 3
  have e0 : n + 1 - 1 = n := by omega
  rw [e0, Nat.sub_zero, Nat.one_mul]
  have e1 : (n + 2) ^ 3 = n * (n + 2) ^ 2 + 2 * (n + 2) ^ 2 := by ring
  have e3 : (n + 2) ^ 2 = (n + 2) * (n + 2) := by ring
  have h4 : n + 2 ≤ (n + 2) * (n + 2) := Nat.le_mul_of_pos_left _ (by omega)
  omega

/-- Running the scanner's loop with fuel `lzFuel n` reaches a state where
the while-condition has failed: the embedded loop has fully terminated and
`lzScanRaw` returns the value of the Python while-loop. -/
theorem lzIter_fuel_final (p : List Int) :
    ¬ lzCond p.length (lzIter p (lzFuel p.length)) :=
  lzTerm_aux p (lzFuel p.length) lzInit (lzInv_init p.length) (lzM_init_le_fuel p.length)

/-- Once the loop condition has failed at iteration `k`, every later
iteration is identical: the scan state stabilizes. -/
theorem lzIter_stable (p : List Int) (k : Nat)
    (h : ¬ lzCond p.length (lzIter p k)) :
    ∀ j, lzIter p (k + j) = lzIter p k := by
  intro j
  induction j with
  | zero => rfl
  | succ j ih =>
      show lzIter p (k + j + 1) = lzIter p k
      unfold lzIter
      rw [lzRun_succ_back]
      show lzGuard p (lzIter p (k + j)) = lzIter p k
      rw [ih, lzGuard, if_neg h]

/-- The complexity counter never decreases along the guarded iteration. -/
theorem lzRun_complexity_mono (p : List Int) :
    ∀ (k : Nat) (s : LZState), s.complexity ≤ (lzRun p s k).complexity := by
  intro k
  induction k with
  | zero => intro s; exact le_refl _
  | succ k ih =>
      intro s
      by_cases hc : lzCond p.length s
      · rw [lzRun_succ_of_cond p s k hc]
        refine le_trans ?_ (ih (lzStep p s))
        obtain ⟨ct, ptr, pre, sub, fin⟩ := s
        simp only [lzStep]
        split_ifs <;> dsimp only <;> omega
      · rw [lzRun_fix p s hc (k + 1)]

/-- One guarded step preserves `pointer < current_prefix_len`. -/
theorem lzGuard_pointer_lt (p : List Int) (s : LZState)
    (h : s.pointer < s.current_prefix_len) :
    (lzGuard p s).pointer < (lzGuard p s).current_prefix_len := by
  rw [lzGuard]
  by_cases hc : lzCond p.length s
  · rw [if_pos hc]
    obtain ⟨ct, ptr, pre, sub, fin⟩ := s
    simp only [lzStep] at h ⊢
    split_ifs with hm hp
    · dsimp only at h ⊢
      omega
    · dsimp only at h ⊢
      omega
    · dsimp only at h hp ⊢
      omega
  · rw [if_neg hc]
    exact h

/-- Reading a successful binarization through `lempelziv_single`. -/
theorem lempelziv_single_of_ok (signal : List ℚ) (mode : String) (nz : Bool)
    (p : List Int) (h : lempelziv_binarize signal mode = Except.ok p) :
    lempelziv_single signal mode nz =
      Except.ok (if nz then lempelziv_normalize p (lzScanRaw p) else (lzScanRaw p : ℝ)) := by
  unfold lempelziv_single
  rw [h]

/-- Reading a failed binarization through `lempelziv_single`. -/
theorem lempelziv_single_of_error (signal : List ℚ) (mode : String) (nz : Bool)
    (e : String) (h : lempelziv_binarize signal mode = Except.error e) :
    lempelziv_single signal mode nz = Except.error e := by
  unfold lempelziv_single
  rw [h]

/-- Reading an in-bounds index of a constant list. -/
theorem getD_replicate {α : Type} (d c : α) :
    ∀ (n i : Nat), i < n → (List.replicate n c).getD i d = c := by
  intro n
  induction n with
  | zero => intro i hi; omega
  | succ n ih =>
      intro i hi
      cases i with
      | zero => rfl
      | succ i =>
          show (List.replicate n c).getD i d = c
          exact ih i (by omega)

/-- Inserting the repeated value into a constant list keeps it constant. -/
theorem insertSorted_replicate (c : ℚ) :
    ∀ m, insertSorted c (List.replicate m c) = List.replicate (m + 1) c := by
  intro m
  cases m with
  | zero => rfl
  | succ m =>
      show insertSorted c (c :: List.replicate m c) = _
      rw [insertSorted, if_pos (le_refl c)]
      rfl

/-- Sorting a constant list is the identity. -/
theorem sortQ_replicate (c : ℚ) :
    ∀ n, sortQ (List.replicate n c) = List.replicate n c := by
  intro n
  induction n with
  | zero => rfl
  | succ n ih =>
      show insertSorted c (sortQ (List.replicate n c)) = _
      rw [ih, insertSorted_replicate]

/-- The median of a non-empty constant sequence is the repeated value. -/
theorem npMedian_replicate (c : ℚ) (n : Nat) (h : 1 ≤ n) :
    npMedian (List.replicate n c) = c := by
  simp only [npMedian]
  rw [sortQ_replicate, List.length_replicate]
  by_cases hodd : n % 2 = 1
  · rw [if_pos hodd]
    exact getD_replicate 0 c n (n / 2) (Nat.div_lt_self (by omega) (by omega))
  · rw [if_neg hodd]
    have h2 : 2 ≤ n := by omega
    rw [getD_replicate 0 c n (n / 2 - 1) (by omega), getD_replicate 0 c n (n / 2)
      (Nat.div_lt_self (by omega) (by omega))]
    ring

/-- The mean of a non-empty constant sequence is the repeated value. -/
theorem npMean_replicate (c : ℚ) (n : Nat) (h : 1 ≤ n) :
    npMean (List.replicate n c) = c := by
  unfold npMean
  rw [List.sum_replicate, List.length_replicate, nsmul_eq_mul, mul_comm, mul_div_assoc,
    div_self (Nat.cast_ne_zero.mpr (by omega)), mul_one]

/-- The binarizer sends every non-empty constant sequence to the all-ones
sequence, for both recognized threshold modes (ties go to the `1` bin). -/
theorem lempelziv_binarize_replicate (c : ℚ) (n : Nat) (mode : String) (h : 1 ≤ n)
    (hm : mode = "median" ∨ mode = "mean") :
    lempelziv_binarize (List.replicate n c) mode = Except.ok (List.replicate n 1) := by
  rcases hm with hm | hm
  · rw [hm]
    show Except.ok ((List.replicate n c).map fun v =>
      if v < npMedian (List.replicate n c) then (0 : Int) else 1) = _
    rw [npMedian_replicate c n h, List.map_replicate, if_neg (lt_irrefl c)]
  · rw [hm]
    show Except.ok ((List.replicate n c).map fun v =>
      if v < npMean (List.replicate n c) then (0 : Int) else 1) = _
    rw [npMean_replicate c n h, List.map_replicate, if_neg (lt_irrefl c)]

/-- Trace of the scanner on the all-ones sequence: while `k ≤ n - 1` the
first `k` condition evaluations have all been matches, so the state has
`complexity = 1`, `pointer = 0`, `current_prefix_len = 1`,
`current_substring_len = k + 1`. -/
theorem lzIter_ones (n : Nat) (hn : 2 ≤ n) :
    ∀ k, k ≤ n - 1 → lzIter (List.replicate n 1) k = ⟨1, 0, 1, k + 1, 1⟩ := by
  intro k
  induction k with
  | zero => intro _; rfl
  | succ k ih =>
      intro hk
      unfold lzIter
      rw [lzRun_succ_back]
      show lzGuard (List.replicate n 1) (lzIter (List.replicate n 1) k) = _
      rw [ih (by omega)]
      have hcond : lzCond (List.replicate n (1 : Int)).length ⟨1, 0, 1, k + 1, 1⟩ := by
        show 1 + (k + 1) ≤ (List.replicate n (1 : Int)).length
        rw [List.length_replicate]
        omega
      rw [lzGuard, if_pos hcond]
      show lzStep (List.replicate n 1) ⟨1, 0, 1, k + 1, 1⟩ = _
      rw [lzStep]
      dsimp only
      rw [getD_replicate 0 1 n (0 + (k + 1) - 1) (by omega),
        getD_replicate 0 1 n (1 + (k + 1) - 1) (by omega), if_pos rfl]

/-- The raw scan of a non-trivial all-ones sequence yields complexity 2:
the whole loop is one long match, and the final `current_substring_len != 1`
adjustment fires once. -/
theorem lzScanRaw_ones (n : Nat) (hn : 2 ≤ n) :
    lzScanRaw (List.replicate n 1) = 2 := by
  have hL : (List.replicate n (1 : Int)).length = n := List.length_replicate n 1
  have hfin := lzIter_ones n hn (n - 1) (le_refl _)
  have hcond : ¬ lzCond (List.replicate n (1 : Int)).length ⟨1, 0, 1, n - 1 + 1, 1⟩ := by
    show ¬ (1 + (n - 1 + 1) ≤ (List.replicate n (1 : Int)).length)
    rw [hL]
    omega
  have hstable := lzIter_stable (List.replicate n 1) (n - 1) (by rw [hfin]; exact hcond)
  have hfuel : n - 1 ≤ lzFuel n := by
    have h1 : n ≤ (n + 2) ^ 3 := le_trans (by omega) (Nat.le_self_pow (by omega) (n + 2))
    unfold lzFuel
    omega
  have hiter : lzIter (List.replicate n 1) (lzFuel n) = ⟨1, 0, 1, n - 1 + 1, 1⟩ := by
    have h2 : n - 1 + (lzFuel n - (n - 1)) = lzFuel n := by omega
    calc lzIter (List.replicate n 1) (lzFuel n)
        = lzIter (List.replicate n 1) (n - 1 + (lzFuel n - (n - 1))) := by rw [h2]
      _ = lzIter (List.replicate n 1) (n - 1) := hstable _
      _ = ⟨1, 0, 1, n - 1 + 1, 1⟩ := hfin
  simp only [lzScanRaw]
  rw [hL, hiter]
  dsimp only
  rw [if_pos (by omega)]

/-- The binary logarithm of 8 is 3. -/
theorem logb_two_eight : Real.logb 2 8 = 3 := by
  have h8 : (8 : ℝ) = 2 ^ (3 : ℕ) := by norm_num
  rw [h8, Real.logb_pow, Real.logb_self_eq_one (by norm_num)]
  norm_num

/-- For a recognized threshold mode the single-sequence computation always
succeeds, with value `lzcValue`. -/
theorem lempelziv_single_ok (ch : List ℚ) (mode : String) (nz : Bool)
    (h : mode = "median" ∨ mode = "mean") :
    lempelziv_single ch mode nz = Except.ok (lzcValue ch mode nz) := by
  have hb : ∃ p, lempelziv_binarize ch mode = Except.ok p := by
    rcases h with h | h
    · rw [h]
      exact ⟨_, rfl⟩
    · rw [h]
      exact ⟨_, rfl⟩
  obtain ⟨p, hp⟩ := hb
  rw [lempelziv_single_of_ok ch mode nz p hp]
  unfold lzcValue exceptD
  rw [lempelziv_single_of_ok ch mode nz p hp]

/-- For a recognized threshold mode the per-channel loop succeeds and
returns exactly the list of independently computed single-channel values,
in channel order. -/
theorem lzcList_ok (mode : String) (nz : Bool) (h : mode = "median" ∨ mode = "mean") :
    ∀ channels : List (List ℚ),
      lzcList channels mode nz = Except.ok (channels.map (fun ch => lzcValue ch mode nz)) := by
  intro channels
  induction channels with
  | nil => rfl
  | cons ch rest ih =>
      show lzcList (ch :: rest) mode nz = _
      unfold lzcList
      rw [lempelziv_single_ok ch mode nz h, ih]
      rfl

/-- C1: the scanner is exactly the transcribed LZ76 scan (`lzInit`,
`lzCond`, `lzStep`, final adjustment in `lzScanRaw` mirror the source
statement for statement), and for every binary sequence of length at least
1 the returned raw complexity is a positive integer, at least 1. -/
theorem claim_C1_scan_complexity_ge_one (p : List Int) (h : 1 ≤ p.length) :
    1 ≤ lzScanRaw p := by
  have hmono : lzInit.complexity ≤ (lzRun p lzInit (lzFuel p.length)).complexity :=
    lzRun_complexity_mono p (lzFuel p.length) lzInit
  simp only [lzScanRaw]
  split_ifs with hs
  · have h1 : 1 ≤ (lzIter p (lzFuel p.length)).complexity := hmono
    omega
  · exact hmono

/-- Witness for C1 at the concrete input `[0]`. -/
theorem claim_C1_witness : 1 ≤ ([0] : List Int).length ∧ 1 ≤ lzScanRaw [0] :=
  ⟨by decide, claim_C1_scan_complexity_ge_one [0] (by decide)⟩

/-- C2 counterexample: on `[1,2,1,2,1,2,1,2]` with mode `"median"` the code
computes raw complexity 3 (not 4) and normalized complexity 9/8 (not 3/2):
the loop commits one phrase on the initial mismatch and then matches the
alternating tail in a single run, leaving `current_substring_len = 7`, so
the final adjustment yields 3. -/
theorem claim_C2_counterexample :
    (lzScanRaw [0, 1, 0, 1, 0, 1, 0, 1] = 3 ∧ (3 : Nat) ≠ 4) ∧
    lempelziv_single [1, 2, 1, 2, 1, 2, 1, 2] "median" true = Except.ok (9 / 8) ∧
    ((9 : ℝ) / 8 ≠ 3 / 2) := by
  refine ⟨⟨by decide, by decide⟩, ?_, by norm_num⟩
  have hmed : npMedian [1, 2, 1, 2, 1, 2, 1, 2] = 3 / 2 := by
    norm_num [npMedian, sortQ, insertSorted]
  have hb : lempelziv_binarize [1, 2, 1, 2, 1, 2, 1, 2] "median" =
      Except.ok [0, 1, 0, 1, 0, 1, 0, 1] := by
    have h0 : lempelziv_binarize [1, 2, 1, 2, 1, 2, 1, 2] "median" =
        Except.ok (([1, 2, 1, 2, 1, 2, 1, 2] : List ℚ).map
          (fun v => if v < npMedian [1, 2, 1, 2, 1, 2, 1, 2] then (0 : Int) else 1)) := rfl
    rw [h0, hmed]
    norm_num
  rw [lempelziv_single_of_ok _ _ _ _ hb, if_pos rfl]
  have hscan : lzScanRaw [0, 1, 0, 1, 0, 1, 0, 1] = 3 := by decide
  rw [hscan]
  unfold lempelziv_normalize
  simp only [List.length_cons, List.length_nil]
  norm_num [logb_two_eight]

/-- C2 as amended: for the sequence `[1,2,1,2,1,2,1,2]` with mode
`"median"` the binarized sequence is `[0,1,0,1,0,1,0,1]`, the raw
complexity is 3, and the normalized complexity is `3 / (8 / log2 8)` which
equals 9/8. -/
theorem claim_C2_amended :
    lempelziv_binarize [1, 2, 1, 2, 1, 2, 1, 2] "median" = Except.ok [0, 1, 0, 1, 0, 1, 0, 1] ∧
    lzScanRaw [0, 1, 0, 1, 0, 1, 0, 1] = 3 ∧
    lempelziv_single [1, 2, 1, 2, 1, 2, 1, 2] "median" true = Except.ok (9 / 8) := by
  have hmed : npMedian [1, 2, 1, 2, 1, 2, 1, 2] = 3 / 2 := by
    norm_num [npMedian, sortQ, insertSorted]
  have hb : lempelziv_binarize [1, 2, 1, 2, 1, 2, 1, 2] "median" =
      Except.ok [0, 1, 0, 1, 0, 1, 0, 1] := by
    have h0 : lempelziv_binarize [1, 2, 1, 2, 1, 2, 1, 2] "median" =
        Except.ok (([1, 2, 1, 2, 1, 2, 1, 2] : List ℚ).map
          (fun v => if v < npMedian [1, 2, 1, 2, 1, 2, 1, 2] then (0 : Int) else 1)) := rfl
    rw [h0, hmed]
    norm_num
  refine ⟨hb, by decide, ?_⟩
  rw [lempelziv_single_of_ok _ _ _ _ hb, if_pos rfl]
  have hscan : lzScanRaw [0, 1, 0, 1, 0, 1, 0, 1] = 3 := by decide
  rw [hscan]
  unfold lempelziv_normalize
  simp only [List.length_cons, List.length_nil]
  norm_num [logb_two_eight]

/-- C3 is a code bug: the normalizer contains no `n > 1` validation and
does not fail; on a length-1 binary sequence it evaluates
`complexity / (1 / log2 1)` and returns the number `0` (IEEE evaluation in
the source gives `complexity / inf = 0.0`; the totalized real model gives
the same `0`), and the full pipeline on a length-1 signal with
`normalize = true` likewise returns the number `0` instead of raising. -/
theorem claim_C3_code_behavior :
    lempelziv_normalize [1] 1 = 0 ∧
    lempelziv_single [5] "median" true = Except.ok 0 := by
  constructor
  · unfold lempelziv_normalize
    simp [Real.logb_one]
  · have hmed : npMedian [5] = 5 := by norm_num [npMedian, sortQ, insertSorted]
    have hb : lempelziv_binarize [5] "median" = Except.ok [1] := by
      have h0 : lempelziv_binarize [5] "median" =
          Except.ok (([5] : List ℚ).map
            (fun v => if v < npMedian [5] then (0 : Int) else 1)) := rfl
      rw [h0, hmed]
      norm_num
    rw [lempelziv_single_of_ok _ _ _ _ hb, if_pos rfl]
    have hscan : lzScanRaw [1] = 1 := by decide
    rw [hscan]
    unfold lempelziv_normalize
    simp [Real.logb_one]

/-- C4 counterexample: the constant sequence `[5,5]` binarizes to `[1,1]`
but its raw complexity is 2, not 1 (the whole loop is one match, so the
final `current_substring_len != 1` adjustment adds 1). -/
theorem claim_C4_counterexample :
    lempelziv_binarize [5, 5] "median" = Except.ok [1, 1] ∧
    lzScanRaw [1, 1] = 2 ∧ (2 : Nat) ≠ 1 := by
  refine ⟨?_, by decide, by decide⟩
  have hmed : npMedian [5, 5] = 5 := by norm_num [npMedian, sortQ, insertSorted]
  have h0 : lempelziv_binarize [5, 5] "median" =
      Except.ok (([5, 5] : List ℚ).map
        (fun v => if v < npMedian [5, 5] then (0 : Int) else 1)) := rfl
  rw [h0, hmed]
  norm_num

/-- C4 as amended: for every constant sequence of length at least 2 and
either recognized threshold mode, the binarized sequence is all ones (ties
go to 1) and the raw complexity equals 2. -/
theorem claim_C4_amended (n : Nat) (c : ℚ) (mode : String) (hn : 2 ≤ n)
    (hm : mode = "median" ∨ mode = "mean") :
    lempelziv_binarize (List.replicate n c) mode = Except.ok (List.replicate n 1) ∧
    lzScanRaw (List.replicate n 1) = 2 :=
  ⟨lempelziv_binarize_replicate c n mode (by omega) hm, lzScanRaw_ones n hn⟩

/-- Witness for the amended C4 at `n = 3`, `c = 7`, mode `"median"`. -/
theorem claim_C4_witness :
    (2 ≤ 3 ∧ ("median" = "median" ∨ "median" = "mean")) ∧
    (lempelziv_binarize (List.replicate 3 7) "median" = Except.ok (List.replicate 3 1) ∧
      lzScanRaw (List.replicate 3 1) = 2) :=
  ⟨⟨by omega, Or.inl rfl⟩, claim_C4_amended 3 7 "median" (by omega) (Or.inl rfl)⟩

/-- C5 is a code bug: there is no empty-input validation anywhere in the
scanner; on the empty sequence the while-condition `1 + 1 <= 0` is false at
once, the loop body never runs, and the raw complexity 1 is returned as a
normal numeric result instead of the boundary error the spec requires. -/
theorem claim_C5_code_behavior :
    lempelziv_binarize [] "median" = Except.ok [] ∧
    lzScanRaw [] = 1 ∧
    lempelziv_single [] "median" false = Except.ok 1 := by
  refine ⟨rfl, by decide, ?_⟩
  have hb : lempelziv_binarize [] "median" = Except.ok [] := rfl
  rw [lempelziv_single_of_ok _ _ _ _ hb, if_neg Bool.false_ne_true]
  have hscan : lzScanRaw ([] : List Int) = 1 := by decide
  rw [hscan]
  norm_num

/-- C6: for every multichannel input and recognized threshold mode, the
returned scalar is the arithmetic mean (sum over count) of the per-channel
single-sequence complexities computed independently, and the parameter
record holds exactly the per-channel list in input channel order. -/
theorem claim_C6_multichannel_mean (channels : List (List ℚ)) (mode : String) (nz : Bool)
    (h : mode = "median" ∨ mode = "mean") :
    complexity_lempelziv channels mode nz =
      Except.ok (((channels.map fun ch => lzcValue ch mode nz).sum /
        ((channels.map fun ch => lzcValue ch mode nz).length : ℝ),
        channels.map fun ch => lzcValue ch mode nz)) ∧
    ∀ ch ∈ channels, lempelziv_single ch mode nz = Except.ok (lzcValue ch mode nz) := by
  constructor
  · unfold complexity_lempelziv
    rw [lzcList_ok mode nz h channels]
  · intro ch _
    exact lempelziv_single_ok ch mode nz h

/-- Witness for C6 at the concrete input `[[0,1]]` with mode `"median"`. -/
theorem claim_C6_witness :
    ("median" = "median" ∨ "median" = "mean") ∧
    (complexity_lempelziv [[0, 1]] "median" false =
      Except.ok ((([[(0 : ℚ), 1]].map fun ch => lzcValue ch "median" false).sum /
        (([[(0 : ℚ), 1]].map fun ch => lzcValue ch "median" false).length : ℝ),
        [[(0 : ℚ), 1]].map fun ch => lzcValue ch "median" false)) ∧
      ∀ ch ∈ [[(0 : ℚ), 1]], lempelziv_single ch "median" false =
        Except.ok (lzcValue ch "median" false)) :=
  ⟨Or.inl rfl, claim_C6_multichannel_mean [[0, 1]] "median" false (Or.inl rfl)⟩

/-- C7: at every evaluation of the loop condition (every guarded iterate
from the initial state) the pointer is strictly below the prefix boundary;
`pointer == current_prefix_len` occurs only transiently inside the mismatch
branch, before the reset puts the pointer back to 0. -/
theorem claim_C7_pointer_invariant (p : List Int) (k : Nat) :
    (lzIter p k).pointer < (lzIter p k).current_prefix_len := by
  induction k with
  | zero => exact Nat.zero_lt_one
  | succ k ih =>
      unfold lzIter
      rw [lzRun_succ_back]
      exact lzGuard_pointer_lt p (lzIter p k) ih

/-- C8 counterexample: with the unknown mode `"foo"` and an empty signal
the computation does not fail at all — the conversion loop body never runs,
so no comparison with the string threshold is evaluated, and the scan
returns the number 1. -/
theorem claim_C8_counterexample :
    lempelziv_binarize [] "foo" = Except.ok [] ∧
    lempelziv_single [] "foo" false = Except.ok 1 := by
  refine ⟨rfl, ?_⟩
  have hb : lempelziv_binarize [] "foo" = Except.ok [] := rfl
  rw [lempelziv_single_of_ok _ _ _ _ hb, if_neg Bool.false_ne_true]
  have hscan : lzScanRaw ([] : List Int) = 1 := by decide
  rw [hscan]
  norm_num

/-- C8 as amended: with an unknown threshold mode and a non-empty signal
the computation fails during binarization, at the first element comparison
against the string threshold, with a type error (not with an up-front
configuration error before binarization); an empty signal raises nothing. -/
theorem claim_C8_amended (signal : List ℚ) (mode : String) (nz : Bool)
    (h1 : mode ≠ "median") (h2 : mode ≠ "mean") (h3 : signal ≠ []) :
    lempelziv_single signal mode nz =
      Except.error "TypeError: unsupported comparison between float and str" := by
  obtain ⟨a, t, rfl⟩ : ∃ a t, signal = a :: t := by
    cases signal with
    | nil => exact absurd rfl h3
    | cons a t => exact ⟨a, t, rfl⟩
  apply lempelziv_single_of_error
  unfold lempelziv_binarize
  rw [if_neg h1, if_neg h2]

/-- Witness for the amended C8 at the concrete input `[3]`, mode `"foo"`. -/
theorem claim_C8_witness :
    (("foo" : String) ≠ "median" ∧ ("foo" : String) ≠ "mean" ∧ ([(3 : ℚ)] ≠ [])) ∧
    lempelziv_single [3] "foo" false =
      Except.error "TypeError: unsupported comparison between float and str" :=
  ⟨⟨by decide, by decide, by simp⟩,
    claim_C8_amended [3] "foo" false (by decide) (by decide) (by simp)⟩

/-- C9 counterexample: for `[0,10,10,10]` the mean is 15/2 and the median
is 10 — they differ — yet both modes binarize to the same sequence
`[0,1,1,1]`, because no sample lies between the two thresholds. -/
theorem claim_C9_counterexample :
    npMean [0, 10, 10, 10] = 15 / 2 ∧ npMedian [0, 10, 10, 10] = 10 ∧
    ((15 : ℚ) / 2 ≠ 10) ∧
    lempelziv_binarize [0, 10, 10, 10] "mean" = lempelziv_binarize [0, 10, 10, 10] "median" := by
  have hmean : npMean [0, 10, 10, 10] = 15 / 2 := by norm_num [npMean]
  have hmed : npMedian [0, 10, 10, 10] = 10 := by norm_num [npMedian, sortQ, insertSorted]
  have hbmean : lempelziv_binarize [0, 10, 10, 10] "mean" = Except.ok [0, 1, 1, 1] := by
    have h0 : lempelziv_binarize [0, 10, 10, 10] "mean" =
        Except.ok (([0, 10, 10, 10] : List ℚ).map
          (fun v => if v < npMean [0, 10, 10, 10] then (0 : Int) else 1)) := rfl
    rw [h0, hmean]
    norm_num
  have hbmed : lempelziv_binarize [0, 10, 10, 10] "median" = Except.ok [0, 1, 1, 1] := by
    have h0 : lempelziv_binarize [0, 10, 10, 10] "median" =
        Except.ok (([0, 10, 10, 10] : List ℚ).map
          (fun v => if v < npMedian [0, 10, 10, 10] then (0 : Int) else 1)) := rfl
    rw [h0, hmed]
    norm_num
  exact ⟨hmean, hmed, by norm_num, by rw [hbmean, hbmed]⟩

/-- C9 as amended: if the mean equals the median the two modes binarize
identically (the converse of the claim fails: equal binarizations do not
force mean = median). -/
theorem claim_C9_amended (xs : List ℚ) (h : npMean xs = npMedian xs) :
    lempelziv_binarize xs "mean" = lempelziv_binarize xs "median" := by
  have hL : lempelziv_binarize xs "mean" =
      Except.ok (xs.map fun v => if v < npMean xs then (0 : Int) else 1) := rfl
  have hR : lempelziv_binarize xs "median" =
      Except.ok (xs.map fun v => if v < npMedian xs then (0 : Int) else 1) := rfl
  rw [hL, hR, h]

/-- Witness for the amended C9 at `[1,3]`, where mean and median are both 2. -/
theorem claim_C9_witness :
    npMean [1, 3] = npMedian [1, 3] ∧
    lempelziv_binarize [1, 3] "mean" = lempelziv_binarize [1, 3] "median" :=
  ⟨by norm_num [npMean, npMedian, sortQ, insertSorted],
    claim_C9_amended [1, 3] (by norm_num [npMean, npMedian, sortQ, insertSorted])⟩

/-- C10: the scanner's while-loop terminates on every finite binary
sequence: there is an iteration count after which the loop condition has
failed and the scan state never changes again, so the unnormalized scan is
a total function of its input. -/
theorem claim_C10_termination (p : List Int) :
    ∃ k, ¬ lzCond p.length (lzIter p k) ∧ ∀ j, lzIter p (k + j) = lzIter p k :=
  ⟨lzFuel p.length, lzIter_fuel_final p,
    fun j => lzIter_stable p (lzFuel p.length) (lzIter_fuel_final p) j⟩
